import Mathlib

/-!
Shallow embedding of the contact-directory library (src/address_book.py)
and proofs of the specification's claims about it.

The Python source defines:
  * Field / Name / Phone  -- thin string wrappers,
  * Record                -- a named contact holding an ordered list of Phone,
  * AddressBook           -- a UserDict mapping a name to its Record.

Strings are modelled as Lean String (a sequence of Unicode code points,
matching CPython, where len counts code points).  Python dict state is
modelled as an association list with unique keys, insertion order
preserved, as CPython dicts behave.
-/

set_option autoImplicit false

namespace AddressBookPy

/-- Characters accepted by CPython's str.isnumeric, i.e. characters whose
Unicode Numeric_Type is Decimal, Digit or Numeric.  The table below lists the
principal numeric blocks (ASCII digits, superscripts, vulgar fractions,
Arabic-Indic and Extended Arabic-Indic digits, Devanagari digits, Thai digits,
Roman numerals, circled/parenthesized numbers, fullwidth digits).  CPython's
full table covers further scripts of the same kind; every character examined
in this development lies in the listed ranges and is classified exactly as
CPython classifies it. -/
def pyIsNumericChar (c : Char) : Bool :=
  let n := c.toNat
  decide (0x30 ≤ n ∧ n ≤ 0x39) ||       -- ASCII digits 0-9
  decide (n = 0xB2 ∨ n = 0xB3 ∨ n = 0xB9) ||   -- superscripts two, three, one
  decide (0xBC ≤ n ∧ n ≤ 0xBE) ||       -- vulgar fractions 1/4, 1/2, 3/4
  decide (0x660 ≤ n ∧ n ≤ 0x669) ||     -- Arabic-Indic digits
  decide (0x6F0 ≤ n ∧ n ≤ 0x6F9) ||     -- Extended Arabic-Indic digits
  decide (0x966 ≤ n ∧ n ≤ 0x96F) ||     -- Devanagari digits
  decide (0xE50 ≤ n ∧ n ≤ 0xE59) ||     -- Thai digits
  decide (0x2160 ≤ n ∧ n ≤ 0x2182) ||   -- Roman numerals
  decide (0x2460 ≤ n ∧ n ≤ 0x249B) ||   -- circled and parenthesized numbers
  decide (0xFF10 ≤ n ∧ n ≤ 0xFF19)      -- fullwidth digits

/-- CPython's str.isnumeric: the string is non-empty and every character has
the Unicode Numeric property. -/
def pyIsNumeric (s : String) : Bool :=
  !s.data.isEmpty && s.data.all pyIsNumericChar

/-- Name field: a thin wrapper around a string (class Name(Field)). -/
structure Name where
  value : String
deriving DecidableEq

/-- Phone field: a thin wrapper around a string (class Phone(Field)). -/
structure Phone where
  value : String
deriving DecidableEq

/-- A contact record: a name and an ordered list of phones (class Record). -/
structure Record where
  name : Name
  phones : List Phone
deriving DecidableEq

namespace Record

/-- Python Record.__init__: a record with the given name and no phones. -/
def make (name : String) : Record := ⟨⟨name⟩, []⟩

/-- Python Record.is_phone_valid: len(phone) == 10 and phone.isnumeric().
The self argument is unused by the source, so it is omitted. -/
def is_phone_valid (phone : String) : Bool :=
  phone.length == 10 && pyIsNumeric phone

/-- Python Record.add_phone: append Phone(phone) if is_phone_valid(phone),
else do nothing. -/
def add_phone (r : Record) (phone : String) : Record :=
  if is_phone_valid phone then { r with phones := r.phones ++ [⟨phone⟩] } else r

/-- Helper for remove_phone: delete the first element whose value equals
the argument (the for/del/break loop of the source). -/
def removeFirst : List Phone → String → List Phone
  | [], _ => []
  | p :: ps, phone => if p.value = phone then ps else p :: removeFirst ps phone

/-- Python Record.remove_phone: drop the first phone whose value equals
the argument; no-op when none matches. -/
def remove_phone (r : Record) (phone : String) : Record :=
  { r with phones := removeFirst r.phones phone }

/-- Helper for edit_phone: replace the first element whose value equals
old_value by Phone(new_value) (the for/assignment/break loop of the source). -/
def replaceFirst : List Phone → String → String → List Phone
  | [], _, _ => []
  | p :: ps, old_value, new_value =>
    if p.value = old_value then ⟨new_value⟩ :: ps
    else p :: replaceFirst ps old_value new_value

/-- Python Record.edit_phone: when is_phone_valid(new_value), replace the
first phone equal to old_value in place; otherwise do nothing. -/
def edit_phone (r : Record) (old_value new_value : String) : Record :=
  if is_phone_valid new_value then
    { r with phones := replaceFirst r.phones old_value new_value }
  else r

/-- Helper for find_phone: first element whose value equals the argument. -/
def findPhoneList : List Phone → String → Option Phone
  | [], _ => none
  | p :: ps, phone => if p.value = phone then some p else findPhoneList ps phone

/-- Python Record.find_phone: the first stored phone equal to the argument,
or None. -/
def find_phone (r : Record) (phone : String) : Option Phone :=
  findPhoneList r.phones phone

/-- Python Record.__str__: the f-string
"Contact name: ..., phones: ..." with the phone values joined by "; ". -/
def toDisplayString (r : Record) : String :=
  "Contact name: " ++ r.name.value ++ ", phones: " ++
    String.intercalate "; " (r.phones.map Phone.value)

end Record

/-- Python AddressBook state: the underlying dict, insertion-ordered with
unique keys, modelled as an association list. -/
structure AddressBook where
  data : List (String × Record)
deriving DecidableEq

namespace AddressBook

/-- Python dict.update with a single pair: overwrite the value at the first
matching key in place, or append the pair at the end when the key is new. -/
def dictUpdate : List (String × Record) → String → Record → List (String × Record)
  | [], k, v => [(k, v)]
  | (k1, v1) :: rest, k, v =>
    if k1 = k then (k, v) :: rest else (k1, v1) :: dictUpdate rest k v

/-- Python dict.get / key scan: value at the first matching key, or None. -/
def dictGet : List (String × Record) → String → Option Record
  | [], _ => none
  | (k1, v1) :: rest, k => if k1 = k then some v1 else dictGet rest k

/-- Python dict.pop on a present key: drop the entry at the first matching
key. -/
def dictPop : List (String × Record) → String → List (String × Record)
  | [], _ => []
  | (k1, v1) :: rest, k => if k1 = k then rest else (k1, v1) :: dictPop rest k

/-- Python AddressBook.add_record: self.data.update with key
record.name.value. -/
def add_record (b : AddressBook) (r : Record) : AddressBook :=
  ⟨dictUpdate b.data r.name.value r⟩

/-- Python AddressBook.find: self.data.get(name). -/
def find (b : AddressBook) (name : String) : Option Record :=
  dictGet b.data name

/-- Python AddressBook.delete: pop the key when present, else no-op. -/
def delete (b : AddressBook) (name : String) : AddressBook :=
  if name ∈ b.data.map Prod.fst then ⟨dictPop b.data name⟩ else b

/-- Well-formedness of a dict state: keys are pairwise distinct, as they are
in every reachable CPython dict. -/
def WF (b : AddressBook) : Prop :=
  (b.data.map Prod.fst).Nodup

instance (b : AddressBook) : Decidable (WF b) := by
  unfold WF; infer_instance

end AddressBook

/-- The spec's validity predicate, taken from its words: length exactly 10
and every character an ASCII decimal digit 0-9. -/
def specValidAscii (s : String) : Prop :=
  s.length = 10 ∧ ∀ c ∈ s.data, '0' ≤ c ∧ c ≤ '9'

instance (s : String) : Decidable (specValidAscii s) := by
  unfold specValidAscii; infer_instance

/-- Number of phones in a list whose value equals the given string. -/
def countVal : List Phone → String → Nat
  | [], _ => 0
  | p :: ps, v => (if p.value = v then 1 else 0) + countVal ps v

/-- The stored-phone invariant: every phone held by the record passes the
validation gate. -/
def ValidRecord (r : Record) : Prop :=
  ∀ p ∈ r.phones, Record.is_phone_valid p.value = true

instance (r : Record) : Decidable (ValidRecord r) := by
  unfold ValidRecord; infer_instance

namespace Record

lemma findPhoneList_value {l : List Phone} {v : String} {ph : Phone}
    (h : findPhoneList l v = some ph) : ph.value = v := by
  induction l with
  | nil => simp [findPhoneList] at h
  | cons p ps ih =>
    by_cases hp : p.value = v
    · simp [findPhoneList, hp] at h; subst h; exact hp
    · simp [findPhoneList, hp] at h; exact ih h

lemma findPhoneList_mem {l : List Phone} {v : String} {ph : Phone}
    (h : findPhoneList l v = some ph) : ph ∈ l := by
  induction l with
  | nil => simp [findPhoneList] at h
  | cons p ps ih =>
    by_cases hp : p.value = v
    · simp [findPhoneList, hp] at h; simp [h]
    · simp [findPhoneList, hp] at h; exact List.mem_cons_of_mem p (ih h)

lemma findPhoneList_eq_none_iff {l : List Phone} {v : String} :
    findPhoneList l v = none ↔ ∀ p ∈ l, p.value ≠ v := by
  induction l with
  | nil => simp [findPhoneList]
  | cons p ps ih =>
    by_cases hp : p.value = v
    · simp [findPhoneList, hp]
    · simp [findPhoneList, hp, ih]

lemma findPhoneList_append_none {l1 l2 : List Phone} {v : String}
    (h : findPhoneList l1 v = none) :
    findPhoneList (l1 ++ l2) v = findPhoneList l2 v := by
  induction l1 with
  | nil => simp
  | cons p ps ih =>
    by_cases hp : p.value = v
    · simp [findPhoneList, hp] at h
    · simp [findPhoneList, hp] at h ⊢; exact ih h

lemma findPhoneList_append_some {l1 l2 : List Phone} {v : String} {ph : Phone}
    (h : findPhoneList l1 v = some ph) :
    findPhoneList (l1 ++ l2) v = some ph := by
  induction l1 with
  | nil => simp [findPhoneList] at h
  | cons p ps ih =>
    by_cases hp : p.value = v
    · simp [findPhoneList, hp] at h ⊢; exact h
    · simp [findPhoneList, hp] at h ⊢; exact ih h

lemma countVal_eq_zero_iff {l : List Phone} {v : String} :
    countVal l v = 0 ↔ ∀ p ∈ l, p.value ≠ v := by
  induction l with
  | nil => simp [countVal]
  | cons p ps ih =>
    by_cases hp : p.value = v
    · simp [countVal, hp]
    · simp [countVal, hp, ih]

lemma countVal_append (l1 l2 : List Phone) (v : String) :
    countVal (l1 ++ l2) v = countVal l1 v + countVal l2 v := by
  induction l1 with
  | nil => simp [countVal]
  | cons p ps ih => simp [countVal, ih]; omega

lemma exists_first_decomp_of_countVal_pos {l : List Phone} {v : String}
    (h : 0 < countVal l v) :
    ∃ l1 ph l2, l = l1 ++ ph :: l2 ∧ ph.value = v ∧ ∀ q ∈ l1, q.value ≠ v := by
  induction l with
  | nil => simp [countVal] at h
  | cons p ps ih =>
    by_cases hp : p.value = v
    · exact ⟨[], p, ps, by simp, hp, by simp⟩
    · simp [countVal, hp] at h
      obtain ⟨l1, ph, l2, hdec, hval, hfirst⟩ := ih h
      refine ⟨p :: l1, ph, l2, by simp [hdec], hval, ?_⟩
      intro q hq
      rcases List.mem_cons.mp hq with hq | hq
      · subst hq; exact hp
      · exact hfirst q hq

lemma replaceFirst_decomp {l1 l2 : List Phone} {ph : Phone} {ov nv : String}
    (hval : ph.value = ov) (hfirst : ∀ q ∈ l1, q.value ≠ ov) :
    replaceFirst (l1 ++ ph :: l2) ov nv = l1 ++ ⟨nv⟩ :: l2 := by
  induction l1 with
  | nil => simp [replaceFirst, hval]
  | cons p ps ih =>
    have hp : p.value ≠ ov := hfirst p (List.mem_cons_self p ps)
    simp only [List.cons_append, replaceFirst, if_neg hp]
    have := ih (fun q hq => hfirst q (List.mem_cons_of_mem p hq))
    simp [this]

lemma replaceFirst_no_match {l : List Phone} {ov nv : String}
    (h : ∀ p ∈ l, p.value ≠ ov) : replaceFirst l ov nv = l := by
  induction l with
  | nil => rfl
  | cons p ps ih =>
    have hp : p.value ≠ ov := h p (List.mem_cons_self p ps)
    simp only [replaceFirst, if_neg hp]
    simp [ih (fun q hq => h q (List.mem_cons_of_mem p hq))]

lemma mem_replaceFirst {l : List Phone} {ov nv : String} {q : Phone}
    (h : q ∈ replaceFirst l ov nv) : q ∈ l ∨ q = ⟨nv⟩ := by
  induction l with
  | nil => simp [replaceFirst] at h
  | cons p ps ih =>
    by_cases hp : p.value = ov
    · simp only [replaceFirst, if_pos hp] at h
      rcases List.mem_cons.mp h with hq | hq
      · exact Or.inr hq
      · exact Or.inl (List.mem_cons_of_mem p hq)
    · simp only [replaceFirst, if_neg hp] at h
      rcases List.mem_cons.mp h with hq | hq
      · exact Or.inl (by simp [hq])
      · rcases ih hq with hq | hq
        · exact Or.inl (List.mem_cons_of_mem p hq)
        · exact Or.inr hq

lemma removeFirst_decomp {l1 l2 : List Phone} {ph : Phone} {v : String}
    (hval : ph.value = v) (hfirst : ∀ q ∈ l1, q.value ≠ v) :
    removeFirst (l1 ++ ph :: l2) v = l1 ++ l2 := by
  induction l1 with
  | nil => simp [removeFirst, hval]
  | cons p ps ih =>
    have hp : p.value ≠ v := hfirst p (List.mem_cons_self p ps)
    simp only [List.cons_append, removeFirst, if_neg hp]
    simp [ih (fun q hq => hfirst q (List.mem_cons_of_mem p hq))]

lemma removeFirst_no_match {l : List Phone} {v : String}
    (h : ∀ p ∈ l, p.value ≠ v) : removeFirst l v = l := by
  induction l with
  | nil => rfl
  | cons p ps ih =>
    have hp : p.value ≠ v := h p (List.mem_cons_self p ps)
    simp only [removeFirst, if_neg hp]
    simp [ih (fun q hq => h q (List.mem_cons_of_mem p hq))]

lemma mem_removeFirst {l : List Phone} {v : String} {q : Phone}
    (h : q ∈ removeFirst l v) : q ∈ l := by
  induction l with
  | nil => simp [removeFirst] at h
  | cons p ps ih =>
    by_cases hp : p.value = v
    · simp only [removeFirst, if_pos hp] at h
      exact List.mem_cons_of_mem p h
    · simp only [removeFirst, if_neg hp] at h
      rcases List.mem_cons.mp h with hq | hq
      · simp [hq]
      · exact List.mem_cons_of_mem p (ih hq)

lemma exists_decomp_of_findPhoneList_some {l : List Phone} {v : String} {ph : Phone}
    (h : findPhoneList l v = some ph) :
    ∃ l1 l2, l = l1 ++ ph :: l2 ∧ ∀ q ∈ l1, q.value ≠ v := by
  induction l with
  | nil => simp [findPhoneList] at h
  | cons p ps ih =>
    by_cases hp : p.value = v
    · simp only [findPhoneList, if_pos hp, Option.some.injEq] at h
      subst h
      exact ⟨[], ps, by simp, by simp⟩
    · simp only [findPhoneList, if_neg hp] at h
      obtain ⟨l1, l2, hdec, hfirst⟩ := ih h
      refine ⟨p :: l1, l2, by simp [hdec], ?_⟩
      intro q hq
      rcases List.mem_cons.mp hq with hq | hq
      · subst hq; exact hp
      · exact hfirst q hq

end Record

/-- Semicolon join, written directly from the spec's words: phone values
joined by the separator, nothing rendered for an empty list. -/
def joinSemicolon : List String → String
  | [] => ""
  | [s] => s
  | s :: t :: rest => s ++ "; " ++ joinSemicolon (t :: rest)

lemma intercalate_go_eq (l : List String) :
    ∀ a, String.intercalate.go a "; " l = joinSemicolon (a :: l) := by
  induction l with
  | nil => intro a; rfl
  | cons b bs ih =>
    intro a
    have h1 : String.intercalate.go a "; " (b :: bs) =
        String.intercalate.go (a ++ "; " ++ b) "; " bs := rfl
    rw [h1, ih (a ++ "; " ++ b)]
    cases bs with
    | nil => rfl
    | cons c cs => simp [joinSemicolon, String.append_assoc]

/-- C1 (counterexample): the code's validation is not restricted to ASCII
digits.  The string of ten SUPERSCRIPT TWO characters has length 10 and
passes is_phone_valid, but none of its characters is an ASCII digit, so the
claimed iff fails. -/
theorem C1_counterexample :
    Record.is_phone_valid "²²²²²²²²²²" = true ∧ ¬ specValidAscii "²²²²²²²²²²" := by
  decide

/-- C1 (amended): is_phone_valid s is true iff s has length exactly 10 and
every character of s has the Unicode numeric property tested by CPython's
str.isnumeric (a superset of the ASCII digits claimed by the spec). -/
theorem C1_valid_iff (s : String) :
    Record.is_phone_valid s = true ↔
      s.length = 10 ∧ ∀ c ∈ s.data, pyIsNumericChar c = true := by
  simp only [Record.is_phone_valid, pyIsNumeric, Bool.and_eq_true, beq_iff_eq,
    Bool.not_eq_true', List.all_eq_true]
  constructor
  · rintro ⟨hlen, _, hall⟩
    exact ⟨hlen, hall⟩
  · rintro ⟨hlen, hall⟩
    refine ⟨hlen, ?_, hall⟩
    have hlen2 : s.data.length = 10 := hlen
    cases hd : s.data with
    | nil => rw [hd] at hlen2; simp at hlen2
    | cons c cs => simp [List.isEmpty]

/-- C2 (counterexample): the stored-phone invariant claimed by the spec is
"exactly 10 characters, all decimal digits", but starting from a fresh record
add_phone stores the 10-character string of SUPERSCRIPT TWO characters, which
passes is_phone_valid via the Unicode numeric property though none of its
characters is a decimal digit 0-9. -/
theorem C2_counterexample :
    ((Record.make "A").add_phone "²²²²²²²²²²").phones = [⟨"²²²²²²²²²²"⟩] ∧
    ¬ specValidAscii "²²²²²²²²²²" := by
  decide

/-- C2 (amended): every phone stored in a record passes the code's validation
gate is_phone_valid (length exactly 10, every character Unicode-numeric): a
fresh record satisfies the invariant, and add_phone, remove_phone and
edit_phone each preserve it; invalid values are silently rejected by the
operation that would store them (find_phone does not mutate the record at all
in this embedding, being a pure function of it). -/
theorem C2_phone_invariant (nm p ov nv : String) (r : Record) (h : ValidRecord r) :
    ValidRecord (Record.make nm) ∧ ValidRecord (r.add_phone p) ∧
    ValidRecord (r.remove_phone p) ∧ ValidRecord (r.edit_phone ov nv) := by
  refine ⟨?_, ?_, ?_, ?_⟩
  · intro q hq
    simp [Record.make] at hq
  · intro q hq
    by_cases hv : Record.is_phone_valid p = true
    · simp only [Record.add_phone, if_pos hv, List.mem_append, List.mem_singleton] at hq
      rcases hq with hq | hq
      · exact h q hq
      · rw [hq]; exact hv
    · simp only [Record.add_phone, if_neg hv] at hq
      exact h q hq
  · intro q hq
    simp only [Record.remove_phone] at hq
    exact h q (Record.mem_removeFirst hq)
  · intro q hq
    by_cases hv : Record.is_phone_valid nv = true
    · simp only [Record.edit_phone, if_pos hv] at hq
      rcases Record.mem_replaceFirst hq with hq | hq
      · exact h q hq
      · rw [hq]; exact hv
    · simp only [Record.edit_phone, if_neg hv] at hq
      exact h q hq

/-- C2 witness at concrete inputs. -/
theorem C2_phone_invariant_witness :
    ValidRecord (Record.make "A") ∧
    ValidRecord (Record.add_phone ⟨⟨"B"⟩, [⟨"1234567890"⟩]⟩ "0987654321") ∧
    ValidRecord (Record.remove_phone ⟨⟨"B"⟩, [⟨"1234567890"⟩]⟩ "0987654321") ∧
    ValidRecord (Record.edit_phone ⟨⟨"B"⟩, [⟨"1234567890"⟩]⟩ "1234567890" "0987654321") :=
  C2_phone_invariant "A" "0987654321" "1234567890" "0987654321"
    ⟨⟨"B"⟩, [⟨"1234567890"⟩]⟩ (by decide)

/-- C3: on a record whose stored phones are all valid, add_phone p followed
by find_phone p yields a present result (always one whose value is p) exactly
when is_phone_valid p held; an invalid p leaves the record untouched, and a
valid p is appended at the end of the phone sequence. -/
theorem C3_add_then_find (r : Record) (p : String) (h : ValidRecord r) :
    ((r.add_phone p).find_phone p ≠ none ↔ Record.is_phone_valid p = true) ∧
    (∀ ph, (r.add_phone p).find_phone p = some ph → ph.value = p) ∧
    (Record.is_phone_valid p = false → r.add_phone p = r) ∧
    (Record.is_phone_valid p = true → (r.add_phone p).phones = r.phones ++ [⟨p⟩]) := by
  have hfindr : Record.is_phone_valid p = false → r.find_phone p = none := by
    intro hv
    rw [Record.find_phone, Record.findPhoneList_eq_none_iff]
    intro q hq hqv
    have hval := h q hq
    rw [← hqv, hval] at hv
    cases hv
  refine ⟨?_, ?_, ?_, ?_⟩
  · constructor
    · intro hne
      cases hres : Record.is_phone_valid p with
      | true => rfl
      | false =>
        exfalso
        apply hne
        have hnoop : r.add_phone p = r := by simp [Record.add_phone, hres]
        rw [hnoop]
        exact hfindr hres
    · intro hv
      have hph : (r.add_phone p).phones = r.phones ++ [⟨p⟩] := by
        simp [Record.add_phone, hv]
      simp only [Record.find_phone, hph]
      cases hfind : Record.findPhoneList r.phones p with
      | some ph => rw [Record.findPhoneList_append_some hfind]; simp
      | none => rw [Record.findPhoneList_append_none hfind]; simp [Record.findPhoneList]
  · intro ph hsome
    simp only [Record.find_phone] at hsome
    exact Record.findPhoneList_value hsome
  · intro hv
    simp [Record.add_phone, hv]
  · intro hv
    simp [Record.add_phone, hv]

/-- C3 witness at concrete inputs. -/
theorem C3_add_then_find_witness :
    (Record.find_phone (Record.add_phone (Record.make "A") "1234567890") "1234567890" ≠ none ↔
      Record.is_phone_valid "1234567890" = true) ∧
    (∀ ph, Record.find_phone (Record.add_phone (Record.make "A") "1234567890") "1234567890" =
      some ph → ph.value = "1234567890") ∧
    (Record.is_phone_valid "1234567890" = false →
      Record.add_phone (Record.make "A") "1234567890" = Record.make "A") ∧
    (Record.is_phone_valid "1234567890" = true →
      (Record.add_phone (Record.make "A") "1234567890").phones =
        (Record.make "A").phones ++ [⟨"1234567890"⟩]) :=
  C3_add_then_find (Record.make "A") "1234567890" (by decide)

/-- C4 (counterexample): when the edited value occurs twice, edit_phone
replaces only the first occurrence, so find_phone on the old value still
returns a present result after a successful edit, contradicting the claim. -/
theorem C4_counterexample :
    Record.is_phone_valid "0987654321" = true ∧
    (Record.find_phone ⟨⟨"A"⟩, [⟨"1234567890"⟩, ⟨"1234567890"⟩]⟩ "1234567890").isSome = true ∧
    Record.find_phone
      (Record.edit_phone ⟨⟨"A"⟩, [⟨"1234567890"⟩, ⟨"1234567890"⟩]⟩ "1234567890" "0987654321")
      "1234567890" ≠ none := by
  decide

/-- C4 (amended): after a successful edit_phone old new where new is valid,
old is stored exactly once and old is distinct from new, find_phone old is
absent, find_phone new is present, and the new value sits at exactly the
position old occupied, the rest of the sequence unchanged. -/
theorem C4_edit_then_find (r : Record) (ov nv : String)
    (hvalid : Record.is_phone_valid nv = true) (hne : ov ≠ nv)
    (honce : countVal r.phones ov = 1) :
    (r.edit_phone ov nv).find_phone ov = none ∧
    ((r.edit_phone ov nv).find_phone nv).isSome = true ∧
    ∃ l1 ph l2, r.phones = l1 ++ ph :: l2 ∧ ph.value = ov ∧
      (∀ q ∈ l1, q.value ≠ ov) ∧ (r.edit_phone ov nv).phones = l1 ++ ⟨nv⟩ :: l2 := by
  obtain ⟨l1, ph, l2, hdec, hval, hfirst⟩ :=
    Record.exists_first_decomp_of_countVal_pos (l := r.phones) (v := ov) (by omega)
  have hrepl : (r.edit_phone ov nv).phones = l1 ++ ⟨nv⟩ :: l2 := by
    simp only [Record.edit_phone, if_pos hvalid]
    rw [hdec]
    exact Record.replaceFirst_decomp hval hfirst
  have hl2 : ∀ q ∈ l2, q.value ≠ ov := by
    have hc : countVal r.phones ov = countVal l1 ov + (1 + countVal l2 ov) := by
      rw [hdec, Record.countVal_append]
      simp [countVal, hval]
    have hl1 : countVal l1 ov = 0 := Record.countVal_eq_zero_iff.mpr hfirst
    have hz : countVal l2 ov = 0 := by omega
    exact Record.countVal_eq_zero_iff.mp hz
  refine ⟨?_, ?_, l1, ph, l2, hdec, hval, hfirst, hrepl⟩
  · simp only [Record.find_phone, hrepl]
    rw [Record.findPhoneList_append_none (Record.findPhoneList_eq_none_iff.mpr hfirst)]
    simp only [Record.findPhoneList]
    rw [if_neg (fun hh => hne (Eq.symm hh))]
    exact Record.findPhoneList_eq_none_iff.mpr hl2
  · simp only [Record.find_phone, hrepl]
    cases hf : Record.findPhoneList l1 nv with
    | some q => rw [Record.findPhoneList_append_some hf]; rfl
    | none =>
      rw [Record.findPhoneList_append_none hf]
      simp [Record.findPhoneList]

/-- C4 witness at concrete inputs. -/
theorem C4_edit_then_find_witness :
    Record.find_phone
      (Record.edit_phone ⟨⟨"A"⟩, [⟨"1234567890"⟩]⟩ "1234567890" "0987654321")
      "1234567890" = none ∧
    (Record.find_phone
      (Record.edit_phone ⟨⟨"A"⟩, [⟨"1234567890"⟩]⟩ "1234567890" "0987654321")
      "0987654321").isSome = true ∧
    (∃ l1 ph l2, ([⟨"1234567890"⟩] : List Phone) = l1 ++ ph :: l2 ∧
      ph.value = "1234567890" ∧ (∀ q ∈ l1, q.value ≠ "1234567890") ∧
      (Record.edit_phone ⟨⟨"A"⟩, [⟨"1234567890"⟩]⟩ "1234567890" "0987654321").phones =
        l1 ++ ⟨"0987654321"⟩ :: l2) :=
  C4_edit_then_find ⟨⟨"A"⟩, [⟨"1234567890"⟩]⟩ "1234567890" "0987654321"
    (by decide) (by decide) (by decide)

/-- C5: edit_phone is a no-op when the new value is invalid (whether or not
the old value is stored) and when the old value is not stored; when the new
value is valid and the old value is found, exactly the first phone equal to
the old value is replaced in place by the new value. -/
theorem C5_edit_cases (r : Record) (ov nv : String) :
    (Record.is_phone_valid nv = false → r.edit_phone ov nv = r) ∧
    (r.find_phone ov = none → r.edit_phone ov nv = r) ∧
    (Record.is_phone_valid nv = true → ∀ ph, r.find_phone ov = some ph →
      ∃ l1 l2, r.phones = l1 ++ ph :: l2 ∧ (∀ q ∈ l1, q.value ≠ ov) ∧
        (r.edit_phone ov nv).phones = l1 ++ ⟨nv⟩ :: l2) := by
  refine ⟨?_, ?_, ?_⟩
  · intro hv
    simp [Record.edit_phone, hv]
  · intro hnone
    simp only [Record.find_phone] at hnone
    by_cases hv : Record.is_phone_valid nv = true
    · simp only [Record.edit_phone, if_pos hv]
      rw [Record.replaceFirst_no_match (Record.findPhoneList_eq_none_iff.mp hnone)]
    · simp only [Record.edit_phone, if_neg hv]
  · intro hv ph hsome
    simp only [Record.find_phone] at hsome
    obtain ⟨l1, l2, hdec, hfirst⟩ := Record.exists_decomp_of_findPhoneList_some hsome
    have hval : ph.value = ov := Record.findPhoneList_value hsome
    refine ⟨l1, l2, hdec, hfirst, ?_⟩
    simp only [Record.edit_phone, if_pos hv]
    rw [hdec]
    exact Record.replaceFirst_decomp hval hfirst

/-- C5 witness at concrete inputs. -/
theorem C5_edit_cases_witness :
    Record.edit_phone ⟨⟨"A"⟩, [⟨"1111111111"⟩]⟩ "1111111111" "123" =
      ⟨⟨"A"⟩, [⟨"1111111111"⟩]⟩ ∧
    Record.edit_phone ⟨⟨"A"⟩, [⟨"1111111111"⟩]⟩ "2222222222" "0987654321" =
      ⟨⟨"A"⟩, [⟨"1111111111"⟩]⟩ ∧
    (∃ l1 l2, ([⟨"1111111111"⟩] : List Phone) = l1 ++ ⟨"1111111111"⟩ :: l2 ∧
      (∀ q ∈ l1, q.value ≠ "1111111111") ∧
      (Record.edit_phone ⟨⟨"A"⟩, [⟨"1111111111"⟩]⟩ "1111111111" "0987654321").phones =
        l1 ++ ⟨"0987654321"⟩ :: l2) :=
  ⟨(C5_edit_cases ⟨⟨"A"⟩, [⟨"1111111111"⟩]⟩ "1111111111" "123").1 (by decide),
   (C5_edit_cases ⟨⟨"A"⟩, [⟨"1111111111"⟩]⟩ "2222222222" "0987654321").2.1 (by decide),
   (C5_edit_cases ⟨⟨"A"⟩, [⟨"1111111111"⟩]⟩ "1111111111" "0987654321").2.2
     (by decide) ⟨"1111111111"⟩ (by decide)⟩

/-- C6: remove_phone is a no-op when no stored phone equals the argument;
otherwise it removes exactly the first matching phone, keeping everything
before it and everything after it, later duplicates included. -/
theorem C6_remove_first (r : Record) (p : String) :
    (r.find_phone p = none → r.remove_phone p = r) ∧
    (∀ ph, r.find_phone p = some ph →
      ∃ l1 l2, r.phones = l1 ++ ph :: l2 ∧ (∀ q ∈ l1, q.value ≠ p) ∧
        (r.remove_phone p).phones = l1 ++ l2) := by
  constructor
  · intro hnone
    simp only [Record.find_phone] at hnone
    simp only [Record.remove_phone]
    rw [Record.removeFirst_no_match (Record.findPhoneList_eq_none_iff.mp hnone)]
  · intro ph hsome
    simp only [Record.find_phone] at hsome
    obtain ⟨l1, l2, hdec, hfirst⟩ := Record.exists_decomp_of_findPhoneList_some hsome
    have hval : ph.value = p := Record.findPhoneList_value hsome
    refine ⟨l1, l2, hdec, hfirst, ?_⟩
    simp only [Record.remove_phone]
    rw [hdec]
    exact Record.removeFirst_decomp hval hfirst

/-- C6 witness at concrete inputs, duplicates included. -/
theorem C6_remove_first_witness :
    Record.remove_phone ⟨⟨"A"⟩, [⟨"1234567890"⟩, ⟨"1234567890"⟩]⟩ "0987654321" =
      ⟨⟨"A"⟩, [⟨"1234567890"⟩, ⟨"1234567890"⟩]⟩ ∧
    (∃ l1 l2, ([⟨"1234567890"⟩, ⟨"1234567890"⟩] : List Phone) = l1 ++ ⟨"1234567890"⟩ :: l2 ∧
      (∀ q ∈ l1, q.value ≠ "1234567890") ∧
      (Record.remove_phone ⟨⟨"A"⟩, [⟨"1234567890"⟩, ⟨"1234567890"⟩]⟩ "1234567890").phones =
        l1 ++ l2) :=
  ⟨(C6_remove_first ⟨⟨"A"⟩, [⟨"1234567890"⟩, ⟨"1234567890"⟩]⟩ "0987654321").1 (by decide),
   (C6_remove_first ⟨⟨"A"⟩, [⟨"1234567890"⟩, ⟨"1234567890"⟩]⟩ "1234567890").2
     ⟨"1234567890"⟩ (by decide)⟩

namespace AddressBook

lemma dictGet_dictUpdate_self (l : List (String × Record)) (k : String) (v : Record) :
    dictGet (dictUpdate l k v) k = some v := by
  induction l with
  | nil => simp [dictUpdate, dictGet]
  | cons head rest ih =>
    obtain ⟨k1, v1⟩ := head
    by_cases hk : k1 = k
    · simp [dictUpdate, dictGet, hk]
    · simp only [dictUpdate, if_neg hk, dictGet]
      exact ih

lemma dictGet_dictUpdate_ne {l : List (String × Record)} {k k2 : String} {v : Record}
    (h : k2 ≠ k) : dictGet (dictUpdate l k v) k2 = dictGet l k2 := by
  induction l with
  | nil =>
    simp only [dictUpdate, dictGet]
    rw [if_neg (Ne.symm h)]
  | cons head rest ih =>
    obtain ⟨k1, v1⟩ := head
    by_cases hk : k1 = k
    · subst hk
      simp only [dictUpdate, if_pos rfl, dictGet]
      rw [if_neg (fun hh => h hh.symm), if_neg (fun hh => h hh.symm)]
    · simp only [dictUpdate, if_neg hk, dictGet]
      by_cases hk2 : k1 = k2
      · rw [if_pos hk2, if_pos hk2]
      · rw [if_neg hk2, if_neg hk2]
        exact ih

lemma dictGet_eq_none_iff {l : List (String × Record)} {k : String} :
    dictGet l k = none ↔ k ∉ l.map Prod.fst := by
  induction l with
  | nil => simp [dictGet]
  | cons head rest ih =>
    obtain ⟨k1, v1⟩ := head
    by_cases hk : k1 = k
    · simp [dictGet, hk]
    · have hk2 : ¬ (k = k1) := fun hh => hk hh.symm
      simp [dictGet, hk, ih, List.mem_cons, hk2]

lemma dictGet_dictPop_self {l : List (String × Record)} {k : String}
    (h : (l.map Prod.fst).Nodup) : dictGet (dictPop l k) k = none := by
  induction l with
  | nil => simp [dictPop, dictGet]
  | cons head rest ih =>
    obtain ⟨k1, v1⟩ := head
    simp only [List.map_cons, List.nodup_cons] at h
    obtain ⟨hnotin, hnd⟩ := h
    by_cases hk : k1 = k
    · simp only [dictPop, if_pos hk]
      subst hk
      exact dictGet_eq_none_iff.mpr hnotin
    · simp only [dictPop, if_neg hk, dictGet]
      exact ih hnd

lemma dictGet_dictPop_ne {l : List (String × Record)} {n k : String}
    (h : k ≠ n) : dictGet (dictPop l n) k = dictGet l k := by
  induction l with
  | nil => rfl
  | cons head rest ih =>
    obtain ⟨k1, v1⟩ := head
    by_cases hk : k1 = n
    · have hpop : dictPop ((k1, v1) :: rest) n = rest := by simp [dictPop, hk]
      have hne : ¬ (k1 = k) := by
        intro hh
        apply h
        rw [← hh]
        exact hk
      rw [hpop]
      simp only [dictGet]
      rw [if_neg hne]
    · simp only [dictPop, if_neg hk, dictGet]
      by_cases hk2 : k1 = k
      · rw [if_pos hk2, if_pos hk2]
      · rw [if_neg hk2, if_neg hk2]
        exact ih

end AddressBook

/-- C7: on a well-formed book (unique keys, as in every reachable dict
state), add_record r makes find at r's name return exactly r, delete n makes
find n return none, and deleting an absent name is a no-op. -/
theorem C7_directory_ops (b : AddressBook) (r : Record) (n : String) (hwf : b.WF) :
    (b.add_record r).find r.name.value = some r ∧
    (b.delete n).find n = none ∧
    (b.find n = none → b.delete n = b) := by
  refine ⟨?_, ?_, ?_⟩
  · exact AddressBook.dictGet_dictUpdate_self b.data r.name.value r
  · by_cases hmem : n ∈ b.data.map Prod.fst
    · simp only [AddressBook.delete, if_pos hmem, AddressBook.find]
      exact AddressBook.dictGet_dictPop_self hwf
    · simp only [AddressBook.delete, if_neg hmem, AddressBook.find]
      exact AddressBook.dictGet_eq_none_iff.mpr hmem
  · intro hnone
    simp only [AddressBook.find] at hnone
    have hmem : n ∉ b.data.map Prod.fst := AddressBook.dictGet_eq_none_iff.mp hnone
    simp [AddressBook.delete, hmem]

/-- C7 witness at concrete inputs. -/
theorem C7_directory_ops_witness :
    AddressBook.find
      (AddressBook.add_record ⟨[("Jane Doe", Record.make "Jane Doe")]⟩
        (Record.make "Jane Doe")) "Jane Doe" = some (Record.make "Jane Doe") ∧
    AddressBook.find
      (AddressBook.delete ⟨[("Jane Doe", Record.make "Jane Doe")]⟩ "Jane Doe")
      "Jane Doe" = none ∧
    (AddressBook.find ⟨[("Jane Doe", Record.make "Jane Doe")]⟩ "Jane Doe" = none →
      AddressBook.delete ⟨[("Jane Doe", Record.make "Jane Doe")]⟩ "Jane Doe" =
        ⟨[("Jane Doe", Record.make "Jane Doe")]⟩) :=
  C7_directory_ops ⟨[("Jane Doe", Record.make "Jane Doe")]⟩
    (Record.make "Jane Doe") "Jane Doe" (by decide)

/-- C8: adding two records that share a name overwrites: find at that name
afterwards returns the second record in full, so in this value semantics the
first record's phones are no longer reachable through the book. -/
theorem C8_overwrite (b : AddressBook) (r1 r2 : Record)
    (h : r1.name.value = r2.name.value) :
    ((b.add_record r1).add_record r2).find r1.name.value = some r2 ∧
    ((b.add_record r1).add_record r2).find r2.name.value = some r2 := by
  constructor
  · rw [h]
    exact AddressBook.dictGet_dictUpdate_self _ _ _
  · exact AddressBook.dictGet_dictUpdate_self _ _ _

/-- C8 witness at concrete inputs. -/
theorem C8_overwrite_witness :
    AddressBook.find
      (AddressBook.add_record
        (AddressBook.add_record ⟨[]⟩ ⟨⟨"A"⟩, [⟨"1234567890"⟩]⟩)
        (Record.make "A")) "A" = some (Record.make "A") ∧
    AddressBook.find
      (AddressBook.add_record
        (AddressBook.add_record ⟨[]⟩ ⟨⟨"A"⟩, [⟨"1234567890"⟩]⟩)
        (Record.make "A")) "A" = some (Record.make "A") :=
  C8_overwrite ⟨[]⟩ ⟨⟨"A"⟩, [⟨"1234567890"⟩]⟩ (Record.make "A") (by decide)

/-- C10: frame property: add_record touches only the key it inserts at and
delete only the key it removes, so find at any other key is unchanged; since
records are values here, the contents of records stored at other keys are
unchanged as well. -/
theorem C10_frame (b : AddressBook) (r : Record) (n k : String)
    (h1 : r.name.value ≠ k) (h2 : n ≠ k) :
    (b.add_record r).find k = b.find k ∧ (b.delete n).find k = b.find k := by
  constructor
  · exact AddressBook.dictGet_dictUpdate_ne (Ne.symm h1)
  · by_cases hmem : n ∈ b.data.map Prod.fst
    · simp only [AddressBook.delete, if_pos hmem, AddressBook.find]
      exact AddressBook.dictGet_dictPop_ne (Ne.symm h2)
    · simp only [AddressBook.delete, if_neg hmem]

/-- C10 witness at concrete inputs. -/
theorem C10_frame_witness :
    AddressBook.find
      (AddressBook.add_record ⟨[("K", Record.make "K")]⟩ (Record.make "A")) "K" =
      AddressBook.find ⟨[("K", Record.make "K")]⟩ "K" ∧
    AddressBook.find
      (AddressBook.delete ⟨[("K", Record.make "K")]⟩ "B") "K" =
      AddressBook.find ⟨[("K", Record.make "K")]⟩ "K" :=
  C10_frame ⟨[("K", Record.make "K")]⟩ (Record.make "A") "B" "K" (by decide) (by decide)

/-- C9: the display string is exactly the contact-name prefix followed by the
phone values joined by a semicolon and a space, and a fresh record named John
Doe displays with nothing after the trailing space of the phones label. -/
theorem C9_display_format (r : Record) :
    r.toDisplayString = "Contact name: " ++ r.name.value ++ ", phones: " ++
      joinSemicolon (r.phones.map Phone.value) ∧
    (Record.make "John Doe").toDisplayString = "Contact name: John Doe, phones: " := by
  constructor
  · simp only [Record.toDisplayString]
    congr 1
    cases hm : r.phones.map Phone.value with
    | nil => rfl
    | cons a as =>
      show String.intercalate.go a "; " as = joinSemicolon (a :: as)
      exact intercalate_go_eq as a
  · rfl

end AddressBookPy
